import Mathlib

/-!
Shallow embedding of `src/survey1_analysis_script.py`, a survey-text
frequency pipeline built on pandas and spaCy.

Modelling decisions:

* The spaCy language model (`nlp`) is an external black-box capability.
  We model the result of applying it to a string as a `Doc`: a list of
  sentences (each a list of tokens carrying the attributes the script
  reads: `is_punct`, `is_space`, `is_stop`, `pos_`, `lemma_`) together
  with a list of named-entity surface strings.  The capability itself is
  an arbitrary function `NLP := String → Doc`.
* Python's `collections.Counter` is an insertion-ordered dictionary; we
  model it as an association list `List (String × Nat)` whose key order
  is insertion (first-seen) order.  `Counter.add` embeds
  `self[k] = self.get(k, 0) + n` (the primitive underlying both
  `Counter.update(iterable)` and `Counter.update(mapping)`).
* A pandas row is modelled as `Row := String → Option String`; `none`
  models a missing (NaN) cell, matching the `pd.isna` test.
* Python's `str.split(",")`, `str.strip()` and `str.lower()` are embedded
  as structurally recursive functions over the character list of a
  string (`splitComma`, `trimStr`, `lowerStr`), so that the kernel can
  evaluate them on concrete inputs.
* Python's `sorted(..., key=lambda x: x[1], reverse=True)` is a stable
  sort placing larger counts first.  Stable sorting with respect to a
  fixed total preorder is a unique function, so we embed it as the
  stable insertion sort `get_sorted_list` below (insert each element,
  from the right, before the first element whose count is `≤` its own).
* The single `for col in columns` loop of `build_master_dataframe`
  accumulates three independent quantities (the per-column sorted lists,
  the `overall` counter, and `max_length`); the embedding splits it into
  the independent folds `overallCounter` and `masterMaxLength`, a
  behaviour-preserving loop fission.
-/

namespace Survey

/-- Attributes of one spaCy token that the script reads. -/
structure SpacyToken where
  is_punct : Bool
  is_space : Bool
  is_stop  : Bool
  pos      : String
  lemma_   : String
deriving DecidableEq

/-- Result of running the language model on one string: sentences of
tokens, plus named-entity surface strings. -/
structure Doc where
  sents : List (List SpacyToken)
  ents  : List String
deriving DecidableEq

/-- The injected language-model capability. -/
abbrev NLP := String → Doc

/-- One table row: cell lookup by column name; `none` is a missing cell. -/
abbrev Row := String → Option String

/-- Python `collections.Counter`: association list in insertion order. -/
abbrev Counter := List (String × Nat)

/-- Python `str.lower()` (ASCII case folding, as `Char.toLower`). -/
def lowerStr (s : String) : String :=
  String.mk (s.data.map Char.toLower)

/-- Trim whitespace from both ends of a character list. -/
def trimChars (l : List Char) : List Char :=
  ((l.dropWhile Char.isWhitespace).reverse.dropWhile Char.isWhitespace).reverse

/-- Python `str.strip()`. -/
def trimStr (s : String) : String :=
  String.mk (trimChars s.data)

/-- Worker for `splitComma`: split a character list at commas. -/
def splitCommaChars : List Char → List Char → List (List Char)
  | [], acc => [acc.reverse]
  | c :: cs, acc =>
      if c = ',' then acc.reverse :: splitCommaChars cs []
      else splitCommaChars cs (c :: acc)

/-- Python `str.split(",")`. -/
def splitComma (s : String) : List String :=
  (splitCommaChars s.data []).map String.mk

/-- Python `counter[t] == counter.get(t, 0)`: the count stored for `t`,
zero when `t` is absent. -/
def Counter.count : Counter → String → Nat
  | [], _ => 0
  | (k, v) :: rest, t => if k = t then v else Counter.count rest t

/-- Python `counter[t] = counter.get(t, 0) + n`: increment the entry for
`t` in place, appending a fresh entry at the end when `t` is absent. -/
def Counter.add : Counter → String → Nat → Counter
  | [], t, n => [(t, n)]
  | (k, v) :: rest, t, n =>
      if k = t then (k, v + n) :: rest else (k, v) :: Counter.add rest t n

/-- Python `counter.update(tokens)` for an iterable of tokens. -/
def Counter.update (c : Counter) (tokens : List String) : Counter :=
  tokens.foldl (fun acc t => Counter.add acc t 1) c

/-- Python `counter.update(other)` for another counter (adds counts,
appending unseen keys in `other`'s order). -/
def Counter.updateCounts (c other : Counter) : Counter :=
  other.foldl (fun acc kv => Counter.add acc kv.1 kv.2) c

/-- Well-formedness of the embedding of a Python `Counter`: a Python
dict cannot hold the same key twice. -/
def Counter.WF (c : Counter) : Prop :=
  (c.map Prod.fst).Nodup

instance (c : Counter) : Decidable (Counter.WF c) := by
  unfold Counter.WF; infer_instance

/-- Embeds `tokenize_description` (lines 5-25): walk sentences in
document order and tokens in sentence order, skip punctuation,
whitespace and stop words, emit the lowercased lemma. -/
def tokenize_description (text : String) (nlp : NLP) : List String :=
  (nlp text).sents.flatMap fun sent =>
    (sent.filter fun t => !(t.is_punct || t.is_space || t.is_stop)).map
      fun t => lowerStr t.lemma_

/-- Embeds `tokenize_adjective_cell` (lines 27-43): split the cell on
commas, strip each piece, keep non-empty pieces
(`[item.strip() for item in cell.split(",") if item.strip()]`), run the
model on each piece alone, keep adjectives that are neither stop words
nor punctuation, emit the lowercased lemma. -/
def tokenize_adjective_cell (cell : String) (nlp : NLP) : List String :=
  (((splitComma cell).map trimStr).filter fun s => !(s == "")).flatMap fun cand =>
    (nlp cand).sents.flatMap fun sent =>
      (sent.filter fun t => t.pos == "ADJ" && !t.is_stop && !t.is_punct).map
        fun t => lowerStr t.lemma_

/-- Embeds `tokenize_named_entities` (lines 45-51): the entity surface
texts as they appear. -/
def tokenize_named_entities (text : String) (nlp : NLP) : List String :=
  (nlp text).ents

/-- Functional update of the counters dictionary at one column:
`counters[col].update(tokens)`. -/
def updateAt (counters : String → Counter) (col : String)
    (tokens : List String) : String → Counter :=
  fun c => if c = col then Counter.update (counters col) tokens else counters c

/-- Embeds `compute_counters` (lines 53-67): start from empty counters,
visit rows in order, and for each designated column skip missing cells
and otherwise feed the cell's tokens into that column's counter. -/
def compute_counters (data : List Row) (columns : List String)
    (tokenize_func : String → NLP → List String) (nlp : NLP) :
    String → Counter :=
  data.foldl
    (fun counters row =>
      columns.foldl
        (fun counters col =>
          match row col with
          | none => counters
          | some cell => updateAt counters col (tokenize_func cell nlp))
        counters)
    (fun _ => ([] : Counter))

/-- Stable descending insertion: place `p` before the first entry whose
count is `≤ p`'s count. -/
def insDesc (p : String × Nat) : List (String × Nat) → List (String × Nat)
  | [] => [p]
  | q :: rest => if q.2 ≤ p.2 then p :: q :: rest else q :: insDesc p rest

/-- Embeds `get_sorted_list` (lines 69-73):
`sorted(counter.items(), key=lambda x: x[1], reverse=True)` — the stable
sort of the counter's entries, larger counts first, insertion order
preserved among equal counts. -/
def get_sorted_list (counter : Counter) : List (String × Nat) :=
  counter.foldr insDesc []

/-- The `overall` accumulation of `build_master_dataframe` (lines 83-90):
`overall = Counter()` then `overall.update(counters[col])` per column. -/
def overallCounter (counters : String → Counter) (columns : List String) :
    Counter :=
  columns.foldl (fun ov col => Counter.updateCounts ov (counters col)) []

/-- The `max_length` computation of `build_master_dataframe`
(lines 85-93): maximum of all per-column sorted-list lengths and the
overall sorted-list length. -/
def masterMaxLength (counters : String → Counter) (columns : List String) :
    Nat :=
  max
    (columns.foldl
      (fun m col => max m (get_sorted_list (counters col)).length) 0)
    (get_sorted_list (overallCounter counters columns)).length

/-- One value column of the output DataFrame: either words or counts. -/
inductive DFCol where
  | words (l : List String)
  | freqs (l : List Nat)
deriving DecidableEq

/-- Number of rows stored in one output column. -/
def DFCol.len : DFCol → Nat
  | .words l => l.length
  | .freqs l => l.length

/-- The `while len(words) < max_length: words.append("")` padding loop. -/
def padStrings (l : List String) (n : Nat) : List String :=
  l ++ List.replicate (n - l.length) ""

/-- The `while ...: freqs.append(0)` padding loop. -/
def padNats (l : List Nat) (n : Nat) : List Nat :=
  l ++ List.replicate (n - l.length) 0

/-- Embeds `build_master_dataframe` (lines 75-113): for each designated
column the padded `{col}_Word` / `{col}_Frequency` pair, followed by the
padded `Overall_Word` / `Overall_Frequency` pair, every list padded to
`masterMaxLength`. -/
def build_master_dataframe (counters : String → Counter)
    (columns : List String) : List (String × DFCol) :=
  (columns.flatMap fun col =>
    [(col ++ "_Word",
      DFCol.words (padStrings
        ((get_sorted_list (counters col)).map Prod.fst)
        (masterMaxLength counters columns))),
     (col ++ "_Frequency",
      DFCol.freqs (padNats
        ((get_sorted_list (counters col)).map Prod.snd)
        (masterMaxLength counters columns)))]) ++
  [("Overall_Word",
    DFCol.words (padStrings
      ((get_sorted_list (overallCounter counters columns)).map Prod.fst)
      (masterMaxLength counters columns))),
   ("Overall_Frequency",
    DFCol.freqs (padNats
      ((get_sorted_list (overallCounter counters columns)).map Prod.snd)
      (masterMaxLength counters columns)))]

/-- Embeds the computational content of `process_and_save`
(lines 115-123): aggregate, then build the master table (the CSV write
is the out-of-scope export collaborator). -/
def run_pipeline (data : List Row) (columns : List String)
    (tokenize_func : String → NLP → List String) (nlp : NLP) :
    List (String × DFCol) :=
  build_master_dataframe (compute_counters data columns tokenize_func nlp)
    columns


/-- Sum of the counts that a counter's entries record for key `q`
(insensitive to duplicate keys; equals `Counter.count` on well-formed
counters). -/
def keySum (c : Counter) (q : String) : Nat :=
  (c.map (fun p => if p.1 = q then p.2 else 0)).sum

/-- Mock spaCy token for concrete scenarios: "happy", tagged as an
adjective with lemma "happy". -/
def happyTok : SpacyToken :=
  { is_punct := false, is_space := false, is_stop := false,
    pos := "ADJ", lemma_ := "happy" }

/-- Mock language model: every input is one sentence holding `happyTok`,
with one nonempty named entity. -/
def happyNLP : NLP := fun _ => { sents := [[happyTok]], ents := ["Bob"] }

/-- Concrete counters for witnesses. -/
def wCounters : String → Counter :=
  fun c => if c = "A" then [("x", 2)] else [("x", 1), ("y", 3)]

/-- Concrete row for witnesses: column "A" holds "x", others missing. -/
def wRow : Row := fun c => if c = "A" then some "x" else none

/-- Row of only missing cells. -/
def wMissingRow : Row := fun _ => none

/-- Trivial tokenizer for witnesses: one token, the cell itself. -/
def wTf : String → NLP → List String := fun s _ => [s]


/-- Specification-side restatement of the FullText policy, phrased from
the spec's own words (spec section 4.1): take the model's sentences in
document order and each sentence's tokens in sentence order (their
concatenation), discard every token classified as punctuation,
whitespace, or stop-word, and emit the lowercased lemma of every
retained token, in that order. -/
def fullTextSpecTokens (text : String) (nlp : NLP) : List String :=
  (((nlp text).sents.flatten).filter
    (fun t => !t.is_punct && !t.is_space && !t.is_stop)).map
    (fun t => lowerStr t.lemma_)

/-- Specification-side restatement of the AdjectiveList policy, phrased
from the spec's own words (spec section 4.1): split the cell on commas,
trim surrounding whitespace from each piece, discard empty pieces; for
each remaining piece independently, keep only the piece's tokens whose
part-of-speech is adjective and that are neither stop-words nor
punctuation, and emit their lowercased lemmas, piece order first, token
order within each piece. -/
def adjectiveListSpecTokens (cell : String) (nlp : NLP) : List String :=
  (((splitComma cell).map trimStr).filter (fun s => !(s == ""))).flatMap
    (fun piece =>
      (((nlp piece).sents.flatten).filter
        (fun t => t.pos == "ADJ" && !t.is_stop && !t.is_punct)).map
        (fun t => lowerStr t.lemma_))



theorem insDesc_perm (p : String × Nat) (l : List (String × Nat)) :
    List.Perm (insDesc p l) (p :: l) := by
  induction l with
  | nil => exact List.Perm.refl _
  | cons q rest ih =>
    unfold insDesc
    by_cases hle : q.2 ≤ p.2
    · rw [if_pos hle]
    · rw [if_neg hle]
      exact (ih.cons q).trans (List.Perm.swap p q rest)

theorem pairwise_insDesc {p : String × Nat} {l : List (String × Nat)}
    (h : List.Pairwise (fun a b => b.2 ≤ a.2) l) :
    List.Pairwise (fun a b => b.2 ≤ a.2) (insDesc p l) := by
  induction l with
  | nil => simp [insDesc]
  | cons q rest ih =>
    rw [List.pairwise_cons] at h
    obtain ⟨hq, hrest⟩ := h
    unfold insDesc
    by_cases hle : q.2 ≤ p.2
    · rw [if_pos hle]
      refine List.pairwise_cons.2 ⟨?_, List.pairwise_cons.2 ⟨hq, hrest⟩⟩
      intro y hy
      rcases List.mem_cons.1 hy with rfl | hy
      · exact hle
      · exact le_trans (hq y hy) hle
    · rw [if_neg hle]
      refine List.pairwise_cons.2 ⟨?_, ih hrest⟩
      intro y hy
      rcases List.mem_cons.1 ((insDesc_perm p rest).mem_iff.1 hy) with rfl | hy
      · exact le_of_lt (lt_of_not_le hle)
      · exact hq y hy

theorem get_sorted_list_cons (a : String × Nat) (c : Counter) :
    get_sorted_list (a :: c) = insDesc a (get_sorted_list c) := rfl

theorem get_sorted_list_sorted (c : Counter) :
    List.Pairwise (fun a b => b.2 ≤ a.2) (get_sorted_list c) := by
  induction c with
  | nil => simp [get_sorted_list]
  | cons a c ih =>
    rw [get_sorted_list_cons]
    exact pairwise_insDesc ih

theorem filter_insDesc (p : String × Nat) (l : List (String × Nat)) (n : Nat) :
    (insDesc p l).filter (fun q => q.2 == n) =
      if p.2 == n then p :: l.filter (fun q => q.2 == n)
      else l.filter (fun q => q.2 == n) := by
  induction l with
  | nil =>
    by_cases hp : p.2 = n <;> simp [insDesc, hp]
  | cons q rest ih =>
    unfold insDesc
    by_cases hle : q.2 ≤ p.2
    · rw [if_pos hle]
      by_cases hp : p.2 = n <;> simp [List.filter_cons, hp]
    · rw [if_neg hle]
      have hqn : q.2 ≠ n ∨ p.2 ≠ n := by
        by_cases hp : p.2 = n
        · left
          intro hq
          exact hle (le_of_eq (hq.trans hp.symm))
        · right
          exact hp
      by_cases hp : p.2 = n
      · have hq : q.2 ≠ n := by
          rcases hqn with h | h
          · exact h
          · exact absurd hp h
        simp [List.filter_cons, hq, hp, ih]
      · by_cases hq : q.2 = n <;> simp [List.filter_cons, hq, hp, ih]

theorem get_sorted_list_stable (c : Counter) (n : Nat) :
    (get_sorted_list c).filter (fun q => q.2 == n) =
      c.filter (fun q => q.2 == n) := by
  induction c with
  | nil => rfl
  | cons a c ih =>
    rw [get_sorted_list_cons, filter_insDesc, List.filter_cons]
    by_cases ha : a.2 = n <;> simp [ha, ih]

/-- C3: the ranked list derived from a frequency counter has frequencies
in non-increasing order, and entries with equal frequency appear in the
same relative order as in the source counter (first-appearance order):
filtering the ranked list at any fixed frequency yields exactly the
counter's entries of that frequency, in the counter's own order. -/
theorem get_sorted_list_ranked (counter : Counter) :
    List.Pairwise (fun a b => b.2 ≤ a.2) (get_sorted_list counter) ∧
    ∀ n : Nat,
      (get_sorted_list counter).filter (fun q => q.2 == n) =
        counter.filter (fun q => q.2 == n) :=
  ⟨get_sorted_list_sorted counter, fun n => get_sorted_list_stable counter n⟩

/-- C9: with zero designated columns the table builder yields the
degenerate but well-defined table holding only the overall pair, with
zero rows. -/
theorem build_zero_columns (counters : String → Counter) :
    build_master_dataframe counters [] =
      [("Overall_Word", DFCol.words []), ("Overall_Frequency", DFCol.freqs [])] ∧
    ∀ p ∈ build_master_dataframe counters [], DFCol.len p.2 = 0 := by
  refine ⟨rfl, ?_⟩
  intro p hp
  have e : build_master_dataframe counters ([] : List String) =
      [("Overall_Word", DFCol.words []), ("Overall_Frequency", DFCol.freqs [])] := rfl
  rw [e] at hp
  rcases List.mem_cons.1 hp with rfl | hp
  · rfl
  · rcases List.mem_cons.1 hp with rfl | hp
    · rfl
    · exact absurd hp (List.not_mem_nil p)

/-- C10: the pipeline is deterministic — two runs on an unchanged input
table, designated columns, tokenizer and language-model capability
produce identical output tables. -/
theorem pipeline_deterministic (data₁ data₂ : List Row)
    (columns₁ columns₂ : List String)
    (tf₁ tf₂ : String → NLP → List String) (nlp₁ nlp₂ : NLP)
    (hdata : data₁ = data₂) (hcols : columns₁ = columns₂)
    (htf : tf₁ = tf₂) (hnlp : nlp₁ = nlp₂) :
    run_pipeline data₁ columns₁ tf₁ nlp₁ = run_pipeline data₂ columns₂ tf₂ nlp₂ := by
  rw [hdata, hcols, htf, hnlp]

/-- Witness for C10 at a concrete run. -/
theorem pipeline_deterministic_witness :
    run_pipeline [] ["A"] (fun s _ => [s]) (fun _ => ⟨[], []⟩) =
      run_pipeline [] ["A"] (fun s _ => [s]) (fun _ => ⟨[], []⟩) :=
  pipeline_deterministic _ _ _ _ _ _ _ _ rfl rfl rfl rfl



theorem count_add (c : Counter) (t : String) (n : Nat) (q : String) :
    Counter.count (Counter.add c t n) q =
      Counter.count c q + (if t = q then n else 0) := by
  induction c with
  | nil =>
    by_cases h : t = q <;> simp [Counter.add, Counter.count, h]
  | cons kv rest ih =>
    obtain ⟨k, v⟩ := kv
    by_cases hk : k = t
    · subst hk
      by_cases hq : k = q <;> simp [Counter.add, Counter.count, hq]
    · have htk : t ≠ k := fun h => hk h.symm
      by_cases hq : k = q
      · subst hq
        simp [Counter.add, hk, Counter.count, htk]
      · simp [Counter.add, hk, Counter.count, hq, ih]

theorem keySum_nil (q : String) : keySum [] q = 0 := rfl

theorem keySum_cons (kv : String × Nat) (rest : Counter) (q : String) :
    keySum (kv :: rest) q =
      (if kv.1 = q then kv.2 else 0) + keySum rest q := by
  simp [keySum]

theorem keySum_eq_zero {c : Counter} {q : String}
    (h : q ∉ c.map Prod.fst) : keySum c q = 0 := by
  induction c with
  | nil => rfl
  | cons kv rest ih =>
    rw [List.map_cons, List.mem_cons] at h
    push_neg at h
    rw [keySum_cons, if_neg (fun hh => h.1 hh.symm), ih h.2]

theorem keySum_eq_count {c : Counter} (h : Counter.WF c) (q : String) :
    keySum c q = Counter.count c q := by
  induction c with
  | nil => rfl
  | cons kv rest ih =>
    unfold Counter.WF at h
    rw [List.map_cons, List.nodup_cons] at h
    obtain ⟨k, v⟩ := kv
    by_cases hq : k = q
    · subst hq
      rw [keySum_cons, keySum_eq_zero h.1]
      simp [Counter.count]
    · rw [keySum_cons, if_neg hq, ih h.2]
      simp [Counter.count, hq]

theorem count_updateCounts (c other : Counter) (q : String) :
    Counter.count (Counter.updateCounts c other) q =
      Counter.count c q + keySum other q := by
  induction other generalizing c with
  | nil => simp [Counter.updateCounts, keySum]
  | cons kv rest ih =>
    show Counter.count (Counter.updateCounts (Counter.add c kv.1 kv.2) rest) q = _
    rw [ih, count_add, keySum_cons]
    by_cases h : kv.1 = q <;> simp [h, Nat.add_assoc]

theorem overall_foldl_count (counters : String → Counter)
    (columns : List String) (init : Counter) (t : String) :
    Counter.count
        (columns.foldl (fun ov col => Counter.updateCounts ov (counters col)) init) t =
      Counter.count init t +
        (columns.map (fun col => keySum (counters col) t)).sum := by
  induction columns generalizing init with
  | nil => simp
  | cons col rest ih =>
    rw [List.foldl_cons, ih, count_updateCounts, List.map_cons, List.sum_cons]
    omega

/-- C1: the `overall` counter accumulated by the table builder is the
coordinate-wise sum of the per-column counters: for every token, its
overall count is the sum over the designated columns of its count in
that column's counter. -/
theorem overall_counter_is_sum (counters : String → Counter)
    (columns : List String) (t : String)
    (h : ∀ col ∈ columns, Counter.WF (counters col)) :
    Counter.count (overallCounter counters columns) t =
      (columns.map (fun col => Counter.count (counters col) t)).sum := by
  unfold overallCounter
  rw [overall_foldl_count]
  have : Counter.count [] t = 0 := rfl
  rw [this, Nat.zero_add]
  induction columns with
  | nil => rfl
  | cons col rest ih =>
    rw [List.map_cons, List.map_cons, List.sum_cons, List.sum_cons,
      keySum_eq_count (h col (List.mem_cons_self col rest)) t,
      ih (fun c hc => h c (List.mem_cons_of_mem col hc))]

/-- Witness for C1 at concrete counters over two designated columns. -/
theorem overall_counter_is_sum_witness :
    (∀ col ∈ ["A", "B"], Counter.WF (wCounters col)) ∧
    Counter.count (overallCounter wCounters ["A", "B"]) "x" =
      (["A", "B"].map (fun col => Counter.count (wCounters col) "x")).sum :=
  ⟨by decide, overall_counter_is_sum wCounters ["A", "B"] "x" (by decide)⟩



theorem foldl_max_ge_init (g : String → Nat) (l : List String) (n : Nat) :
    n ≤ l.foldl (fun m x => max m (g x)) n := by
  induction l generalizing n with
  | nil => exact le_refl n
  | cons a l ih =>
    exact le_trans (Nat.le_max_left n (g a)) (ih (max n (g a)))

theorem foldl_max_ge_mem (g : String → Nat) {l : List String} {x : String}
    (hx : x ∈ l) (n : Nat) :
    g x ≤ l.foldl (fun m y => max m (g y)) n := by
  induction l generalizing n with
  | nil => cases hx
  | cons a l ih =>
    rcases List.mem_cons.1 hx with rfl | hx
    · exact le_trans (Nat.le_max_right n (g x)) (foldl_max_ge_init g l (max n (g x)))
    · exact ih hx (max n (g a))

theorem sorted_len_le_max (counters : String → Counter) (columns : List String)
    {col : String} (h : col ∈ columns) :
    (get_sorted_list (counters col)).length ≤ masterMaxLength counters columns := by
  unfold masterMaxLength
  exact le_trans
    (foldl_max_ge_mem (fun c => (get_sorted_list (counters c)).length) h 0)
    (Nat.le_max_left _ _)

theorem overall_len_le_max (counters : String → Counter) (columns : List String) :
    (get_sorted_list (overallCounter counters columns)).length ≤
      masterMaxLength counters columns :=
  Nat.le_max_right _ _

theorem padStrings_length {l : List String} {n : Nat} (h : l.length ≤ n) :
    (padStrings l n).length = n := by
  simp [padStrings]
  omega

theorem padNats_length {l : List Nat} {n : Nat} (h : l.length ≤ n) :
    (padNats l n).length = n := by
  simp [padNats]
  omega

/-- C2: in the built master table, every word column, every frequency
column, and the overall pair share one length — the maximum of all the
ranked-list lengths — and each column is its ranked list's genuine
entries followed by padding entries that are exactly the empty word and
the zero frequency, appended at the end, never interleaved. -/
theorem master_dataframe_padded (counters : String → Counter)
    (columns : List String) :
    (∀ p ∈ build_master_dataframe counters columns,
        DFCol.len p.2 = masterMaxLength counters columns) ∧
    (∀ col ∈ columns,
        (col ++ "_Word",
          DFCol.words ((get_sorted_list (counters col)).map Prod.fst ++
            List.replicate
              (masterMaxLength counters columns -
                (get_sorted_list (counters col)).length) "")) ∈
          build_master_dataframe counters columns ∧
        (col ++ "_Frequency",
          DFCol.freqs ((get_sorted_list (counters col)).map Prod.snd ++
            List.replicate
              (masterMaxLength counters columns -
                (get_sorted_list (counters col)).length) 0)) ∈
          build_master_dataframe counters columns) ∧
    ("Overall_Word",
      DFCol.words ((get_sorted_list (overallCounter counters columns)).map Prod.fst ++
        List.replicate
          (masterMaxLength counters columns -
            (get_sorted_list (overallCounter counters columns)).length) "")) ∈
      build_master_dataframe counters columns ∧
    ("Overall_Frequency",
      DFCol.freqs ((get_sorted_list (overallCounter counters columns)).map Prod.snd ++
        List.replicate
          (masterMaxLength counters columns -
            (get_sorted_list (overallCounter counters columns)).length) 0)) ∈
      build_master_dataframe counters columns := by
  refine ⟨?_, ?_, ?_, ?_⟩
  · intro p hp
    unfold build_master_dataframe at hp
    rcases List.mem_append.1 hp with hp | hp
    · obtain ⟨col, hcol, hmem⟩ := List.mem_flatMap.1 hp
      have hlen : (get_sorted_list (counters col)).length ≤
          masterMaxLength counters columns := sorted_len_le_max counters columns hcol
      rcases List.mem_cons.1 hmem with rfl | hmem
      · show (padStrings _ _).length = _
        rw [padStrings_length (by simpa using hlen)]
      · rcases List.mem_cons.1 hmem with rfl | hmem
        · show (padNats _ _).length = _
          rw [padNats_length (by simpa using hlen)]
        · exact absurd hmem (List.not_mem_nil _)
    · have hlen := overall_len_le_max counters columns
      rcases List.mem_cons.1 hp with rfl | hp
      · show (padStrings _ _).length = _
        rw [padStrings_length (by simpa using hlen)]
      · rcases List.mem_cons.1 hp with rfl | hp
        · show (padNats _ _).length = _
          rw [padNats_length (by simpa using hlen)]
        · exact absurd hp (List.not_mem_nil _)
  · intro col hcol
    constructor
    · refine List.mem_append_left _ (List.mem_flatMap.2 ⟨col, hcol, ?_⟩)
      simp [padStrings, List.length_map]
    · refine List.mem_append_left _ (List.mem_flatMap.2 ⟨col, hcol, ?_⟩)
      simp [padNats, List.length_map]
  · refine List.mem_append_right _ ?_
    simp [padStrings, List.length_map]
  · refine List.mem_append_right _ ?_
    simp [padNats, List.length_map]



theorem flatMap_filter_map (L : List (List SpacyToken))
    (p : SpacyToken → Bool) (f : SpacyToken → String) :
    (L.flatMap fun sent => (sent.filter p).map f) =
      (L.flatten.filter p).map f := by
  induction L with
  | nil => rfl
  | cons s L ih =>
    simp only [List.flatMap_cons, List.flatten_cons, List.filter_append,
      List.map_append, ih]

/-- C5: under the FullText policy, tokenization walks the model's
sentences in document order and each sentence's tokens in sentence
order, discards tokens classified as punctuation, whitespace, or
stop-word, and emits the lowercased lemma of every retained token, in
that order — the code agrees with the spec-side restatement. -/
theorem tokenize_description_spec (text : String) (nlp : NLP) :
    tokenize_description text nlp = fullTextSpecTokens text nlp := by
  unfold tokenize_description fullTextSpecTokens
  rw [flatMap_filter_map]
  have hpred : (fun t : SpacyToken => !(t.is_punct || t.is_space || t.is_stop)) =
      fun t : SpacyToken => !t.is_punct && !t.is_space && !t.is_stop := by
    funext t
    cases t.is_punct <;> cases t.is_space <;> cases t.is_stop <;> rfl
  rw [hpred]

/-- C4: under the AdjectiveList policy, tokenization splits the cell on
commas, trims each piece, drops empty pieces, processes each remaining
piece with the model independently, keeps only adjectives that are
neither stop-words nor punctuation, and emits lowercased lemmas in
piece order then token order — the code agrees with the spec-side
restatement — and the scenario cell `"happy, happy"`, with a model
tagging "happy" as an adjective with lemma "happy", yields exactly two
tokens. -/
theorem tokenize_adjective_cell_spec :
    (∀ (cell : String) (nlp : NLP),
        tokenize_adjective_cell cell nlp = adjectiveListSpecTokens cell nlp) ∧
    tokenize_adjective_cell "happy, happy" happyNLP = ["happy", "happy"] := by
  constructor
  · intro cell nlp
    unfold tokenize_adjective_cell adjectiveListSpecTokens
    simp only [flatMap_filter_map]
  · decide

theorem rowStep_id (columns : List String) (row : Row)
    (tf : String → NLP → List String) (nlp : NLP) (cs : String → Counter)
    (h : ∀ col ∈ columns, row col = none) :
    columns.foldl
      (fun counters col =>
        match row col with
        | none => counters
        | some cell => updateAt counters col (tf cell nlp)) cs = cs := by
  induction columns generalizing cs with
  | nil => rfl
  | cons col rest ih =>
    have h0 : row col = none := h col (List.mem_cons_self col rest)
    simp only [List.foldl_cons, h0]
    exact ih cs (fun c hc => h c (List.mem_cons_of_mem col hc))

/-- C6: a missing cell is silently skipped and contributes nothing —
inserting an extra row of missing cells anywhere in the table (adding no
text to any designated column) leaves every per-column counter, and
hence the overall counter, unchanged. -/
theorem missing_cells_no_effect (pre post : List Row) (row : Row)
    (columns : List String) (tf : String → NLP → List String) (nlp : NLP)
    (h : ∀ col ∈ columns, row col = none) :
    compute_counters (pre ++ row :: post) columns tf nlp =
      compute_counters (pre ++ post) columns tf nlp := by
  unfold compute_counters
  rw [List.foldl_append, List.foldl_append, List.foldl_cons]
  congr 1
  exact rowStep_id columns row tf nlp _ h

/-- Witness for C6: appending a row of missing cells changes nothing. -/
theorem missing_cells_no_effect_witness :
    compute_counters ([wRow] ++ wMissingRow :: []) ["A"] wTf happyNLP =
      compute_counters ([wRow] ++ []) ["A"] wTf happyNLP :=
  missing_cells_no_effect [wRow] [] wMissingRow ["A"] wTf happyNLP
    (fun _ _ => rfl)



theorem counts_pos_add {c : Counter} (h : ∀ p ∈ c, 1 ≤ p.2) (t : String)
    {n : Nat} (hn : 1 ≤ n) : ∀ p ∈ Counter.add c t n, 1 ≤ p.2 := by
  induction c with
  | nil =>
    intro p hp
    simp only [Counter.add, List.mem_singleton] at hp
    rw [hp]
    exact hn
  | cons kv rest ih =>
    obtain ⟨k, v⟩ := kv
    intro p hp
    by_cases hk : k = t
    · rw [show Counter.add ((k, v) :: rest) t n = (k, v + n) :: rest from by
        simp [Counter.add, hk]] at hp
      rcases List.mem_cons.1 hp with rfl | hp
      · exact le_trans hn (Nat.le_add_left n v)
      · exact h p (List.mem_cons_of_mem _ hp)
    · rw [show Counter.add ((k, v) :: rest) t n = (k, v) :: Counter.add rest t n from by
        simp [Counter.add, hk]] at hp
      rcases List.mem_cons.1 hp with rfl | hp
      · exact h (k, v) (List.mem_cons_self _ _)
      · exact ih (fun q hq => h q (List.mem_cons_of_mem _ hq)) p hp

theorem counts_pos_update {c : Counter} (h : ∀ p ∈ c, 1 ≤ p.2)
    (ts : List String) : ∀ p ∈ Counter.update c ts, 1 ≤ p.2 := by
  induction ts generalizing c with
  | nil => exact h
  | cons t ts ih =>
    show ∀ p ∈ Counter.update (Counter.add c t 1) ts, 1 ≤ p.2
    exact ih (counts_pos_add h t (le_refl 1))

theorem counters_pos_inner (columns : List String) (row : Row)
    (tf : String → NLP → List String) (nlp : NLP) (cs : String → Counter)
    (h : ∀ c q, q ∈ cs c → 1 ≤ q.2) :
    ∀ c q,
      q ∈ (columns.foldl
        (fun counters col =>
          match row col with
          | none => counters
          | some cell => updateAt counters col (tf cell nlp)) cs) c →
      1 ≤ q.2 := by
  induction columns generalizing cs with
  | nil => exact h
  | cons col rest ih =>
    cases hc : row col with
    | none =>
      simp only [List.foldl_cons, hc]
      exact ih cs h
    | some cell =>
      simp only [List.foldl_cons, hc]
      apply ih
      intro c q hq
      unfold updateAt at hq
      by_cases hcc : c = col
      · rw [if_pos hcc] at hq
        exact counts_pos_update (h col) (tf cell nlp) q hq
      · rw [if_neg hcc] at hq
        exact h c q hq

theorem counters_pos_outer (data : List Row) (columns : List String)
    (tf : String → NLP → List String) (nlp : NLP) (cs : String → Counter)
    (h : ∀ c q, q ∈ cs c → 1 ≤ q.2) :
    ∀ c q,
      q ∈ (data.foldl
        (fun counters row =>
          columns.foldl
            (fun counters col =>
              match row col with
              | none => counters
              | some cell => updateAt counters col (tf cell nlp))
            counters) cs) c →
      1 ≤ q.2 := by
  induction data generalizing cs with
  | nil => exact h
  | cons row rest ih =>
    simp only [List.foldl_cons]
    exact ih _ (counters_pos_inner columns row tf nlp cs h)

/-- C7: every token recorded in a counter produced by the aggregator has
count at least 1; zero-count entries never exist before padding. -/
theorem counter_counts_positive (data : List Row) (columns : List String)
    (tf : String → NLP → List String) (nlp : NLP) (col : String)
    (p : String × Nat) (hp : p ∈ compute_counters data columns tf nlp col) :
    1 ≤ p.2 := by
  unfold compute_counters at hp
  exact counters_pos_outer data columns tf nlp _
    (fun c q hq => absurd hq (List.not_mem_nil q)) col p hp

/-- Witness for C7 at a one-row, one-column table. -/
theorem counter_counts_positive_witness :
    (("x", 1) ∈ compute_counters [wRow] ["A"] wTf happyNLP "A") ∧
    1 ≤ (("x", 1) : String × Nat).2 :=
  ⟨by decide,
   counter_counts_positive [wRow] ["A"] wTf happyNLP "A" ("x", 1) (by decide)⟩

/-- C8: provided the language-model capability never yields a token
whose lowercased lemma is the empty string nor an entity with empty
surface text, no extraction policy ever emits the empty string as a
token — so an empty word in the output can only be padding. -/
theorem empty_string_never_token (cell : String) (nlp : NLP)
    (hlem : ∀ (input : String), ∀ sent ∈ (nlp input).sents, ∀ t ∈ sent,
      lowerStr t.lemma_ ≠ "")
    (hent : ∀ (input : String), ∀ e ∈ (nlp input).ents, e ≠ "") :
    "" ∉ tokenize_description cell nlp ∧
    "" ∉ tokenize_adjective_cell cell nlp ∧
    "" ∉ tokenize_named_entities cell nlp := by
  refine ⟨?_, ?_, ?_⟩
  · intro hmem
    unfold tokenize_description at hmem
    obtain ⟨sent, hs, hmem⟩ := List.mem_flatMap.1 hmem
    obtain ⟨t, ht, he⟩ := List.mem_map.1 hmem
    exact hlem cell sent hs t (List.mem_filter.1 ht).1 he
  · intro hmem
    unfold tokenize_adjective_cell at hmem
    obtain ⟨cand, hcand, hmem⟩ := List.mem_flatMap.1 hmem
    obtain ⟨sent, hs, hmem⟩ := List.mem_flatMap.1 hmem
    obtain ⟨t, ht, he⟩ := List.mem_map.1 hmem
    exact hlem cand sent hs t (List.mem_filter.1 ht).1 he
  · intro hmem
    exact hent cell "" hmem rfl

/-- Witness for C8 with the mock model, whose lemmas and entity texts
are nonempty. -/
theorem empty_string_never_token_witness :
    "" ∉ tokenize_description "happy" happyNLP ∧
    "" ∉ tokenize_adjective_cell "happy" happyNLP ∧
    "" ∉ tokenize_named_entities "happy" happyNLP :=
  empty_string_never_token "happy" happyNLP
    (by
      intro input sent hs t ht
      have hsent : sent = [happyTok] := by
        simpa [happyNLP] using hs
      rw [hsent] at ht
      have htok : t = happyTok := by
        simpa using ht
      rw [htok]
      decide)
    (by
      intro input e he
      have : e = "Bob" := by
        simpa [happyNLP] using he
      rw [this]
      decide)

end Survey
